import Mathlib

/-!
Verification of the mcp-ragdocs ingestion pipeline: a shallow embedding of
the chunker, the embedding-provider factory, the Qdrant collection
lifecycle, and the add_documentation handler, with theorems settling the
frozen claims about them.

Strings are modelled as Lean `String` (lists of characters); JavaScript
regular-expression split on whitespace runs, `Array.prototype.join`, and
`String.prototype.includes` are embedded as executable functions below.
-/

/-- Whitespace test matching the characters the JS regex class \s matches in
the inputs of interest (space, tab, newline, carriage return, vertical tab,
form feed). -/
def isWsChar (c : Char) : Bool :=
  c == ' ' || c == '\t' || c == '\n' || c == '\r' || c == '\x0b' || c == '\x0c'

/-- Core of JS String.prototype.split(/\s+/): walks the characters, `acc`
holds the reversed current word, `skipping` is true while inside a
whitespace run that has already emitted its preceding word. -/
def splitAux : List Char → List Char → Bool → List (List Char)
  | [], acc, _ => [acc.reverse]
  | c :: rest, acc, skipping =>
    if isWsChar c then
      if skipping then splitAux rest [] true
      else acc.reverse :: splitAux rest [] true
    else splitAux rest (c :: acc) false

/-- JS text.split(/\s+/) on a character list: maximal whitespace runs are
separators; a leading (trailing) run contributes a leading (trailing) empty
word; the empty input yields one empty word. -/
def splitWsL (l : List Char) : List (List Char) := splitAux l [] false

/-- JS Array.prototype.join(' ') on a list of character-list words. -/
def joinWordsL : List (List Char) → List Char
  | [] => []
  | [w] => w
  | w :: ws => w ++ ' ' :: joinWordsL ws

/-- The chunk-accumulation loop of AddDocumentationHandler.chunkText:
push each word onto the current chunk, emit the chunk as soon as its
space-joined length reaches maxChunkSize, and emit any non-empty trailing
chunk. -/
def chunkAuxL (m : Nat) : List (List Char) → List (List Char) → List (List Char)
  | [], cur => if cur.isEmpty then [] else [joinWordsL cur]
  | w :: rest, cur =>
    if m ≤ (joinWordsL (cur ++ [w])).length then
      joinWordsL (cur ++ [w]) :: chunkAuxL m rest []
    else
      chunkAuxL m rest (cur ++ [w])

/-- Same loop as chunkAuxL but recording each emitted chunk as its list of
words instead of the joined string; used to state that chunks are made of
whole words. -/
def chunkGroupsL (m : Nat) : List (List Char) → List (List Char) → List (List (List Char))
  | [], cur => if cur.isEmpty then [] else [cur]
  | w :: rest, cur =>
    if m ≤ (joinWordsL (cur ++ [w])).length then
      (cur ++ [w]) :: chunkGroupsL m rest []
    else
      chunkGroupsL m rest (cur ++ [w])

/-- AddDocumentationHandler.chunkText: split the text on whitespace runs and
accumulate words into chunks of space-joined length at least maxChunkSize
(the last chunk may be shorter). -/
def chunkText (s : String) (m : Nat) : List String :=
  (chunkAuxL m (splitWsL s.data) []).map String.mk

/-- JS Array.prototype.join(' ') on a list of strings. -/
def joinWordsStr : List String → String
  | [] => ""
  | [w] => w
  | w :: ws => w ++ " " ++ joinWordsStr ws

example : chunkText "hello world" 1000 = ["hello world"] := by decide
example : chunkText "" 1000 = [""] := by decide
example : chunkText "aa bb cc" 4 = ["aa bb", "cc"] := by decide
example : splitWsL " a ".data = [[], ['a'], []] := by decide

/-! Basic lemmas about the chunk accumulation loop. -/

theorem chunkAuxL_eq_map (m : Nat) :
    ∀ (ws cur : List (List Char)),
      chunkAuxL m ws cur = (chunkGroupsL m ws cur).map joinWordsL
  | [], cur => by
    by_cases h : cur.isEmpty <;> simp [chunkAuxL, chunkGroupsL, h]
  | w :: rest, cur => by
    by_cases h : m ≤ (joinWordsL (cur ++ [w])).length <;>
      simp [chunkAuxL, chunkGroupsL, h, chunkAuxL_eq_map m rest]

theorem chunkGroupsL_join (m : Nat) :
    ∀ (ws cur : List (List Char)), (chunkGroupsL m ws cur).flatten = cur ++ ws
  | [], cur => by
    by_cases h : cur.isEmpty
    · simp [chunkGroupsL, h, List.isEmpty_iff.mp h]
    · simp [chunkGroupsL, h]
  | w :: rest, cur => by
    by_cases h : m ≤ (joinWordsL (cur ++ [w])).length <;>
      simp [chunkGroupsL, h, chunkGroupsL_join m rest]

theorem chunkGroupsL_ne_nil (m : Nat) :
    ∀ (ws cur : List (List Char)), ∀ g ∈ chunkGroupsL m ws cur, g ≠ []
  | [], cur => by
    by_cases h : cur.isEmpty
    · simp [chunkGroupsL, h]
    · intro g hg
      simp [chunkGroupsL, h] at hg
      subst hg
      simpa [List.isEmpty_iff] using h
  | w :: rest, cur => by
    intro g hg
    by_cases h : m ≤ (joinWordsL (cur ++ [w])).length
    · simp [chunkGroupsL, h] at hg
      rcases hg with hg | hg
      · subst hg; simp
      · exact chunkGroupsL_ne_nil m rest [] g hg
    · simp [chunkGroupsL, h] at hg
      exact chunkGroupsL_ne_nil m rest (cur ++ [w]) g hg

theorem chunkAuxL_ne_nil (m : Nat) :
    ∀ (ws cur : List (List Char)), ws ≠ [] ∨ cur ≠ [] → chunkAuxL m ws cur ≠ []
  | [], cur => by
    intro h
    rcases h with h | h
    · exact absurd rfl h
    · simp [chunkAuxL, List.isEmpty_iff, h]
  | w :: rest, cur => by
    intro _
    by_cases h : m ≤ (joinWordsL (cur ++ [w])).length
    · simp [chunkAuxL, h]
    · simpa [chunkAuxL, h] using
        chunkAuxL_ne_nil m rest (cur ++ [w]) (Or.inr (by simp))

theorem chunkAuxL_dropLast_length (m : Nat) :
    ∀ (ws cur : List (List Char)), ∀ c ∈ (chunkAuxL m ws cur).dropLast, m ≤ c.length
  | [], cur => by
    by_cases h : cur.isEmpty <;> simp [chunkAuxL, h]
  | w :: rest, cur => by
    intro c hc
    by_cases h : m ≤ (joinWordsL (cur ++ [w])).length
    · simp only [chunkAuxL, h, if_pos] at hc
      rcases hr : chunkAuxL m rest [] with _ | ⟨x, xs⟩
      · rw [hr] at hc; simp at hc
      · rw [hr] at hc
        rw [List.dropLast_cons₂] at hc
        rcases List.mem_cons.mp hc with hc | hc
        · subst hc; exact h
        · exact chunkAuxL_dropLast_length m rest [] c (by rw [hr]; exact hc)
    · simp only [chunkAuxL, h, if_neg, not_false_iff] at hc
      exact chunkAuxL_dropLast_length m rest (cur ++ [w]) c hc

/-! Lemmas about joining words and flattening groups of words. -/

theorem joinWordsL_append :
    ∀ (as bs : List (List Char)), as ≠ [] → bs ≠ [] →
      joinWordsL (as ++ bs) = joinWordsL as ++ ' ' :: joinWordsL bs
  | [], _, ha, _ => absurd rfl ha
  | [a], bs, _, hb => by
    rcases bs with _ | ⟨b, bs⟩
    · exact absurd rfl hb
    · simp [joinWordsL]
  | a :: a' :: as, bs, _, hb => by
    have ih := joinWordsL_append (a' :: as) bs (by simp) hb
    simp only [List.cons_append, joinWordsL, ih]
    simp only [List.append_assoc, List.cons_append]
    exact congrArg (fun x => a ++ ' ' :: x) ih

theorem flatten_ne_nil_of_head_ne_nil :
    ∀ (gs : List (List (List Char))), gs ≠ [] → (∀ g ∈ gs, g ≠ []) →
      gs.flatten ≠ []
  | [], h, _ => absurd rfl h
  | g :: gs, _, hne => by
    have hg : g ≠ [] := hne g (by simp)
    rcases g with _ | ⟨w, g'⟩
    · exact absurd rfl hg
    · simp

theorem joinWordsL_map_join :
    ∀ (gs : List (List (List Char))), (∀ g ∈ gs, g ≠ []) →
      joinWordsL (gs.map joinWordsL) = joinWordsL gs.flatten
  | [], _ => rfl
  | [g], _ => by simp [joinWordsL]
  | g :: g' :: gs, hne => by
    have ih := joinWordsL_map_join (g' :: gs) (fun x hx => hne x (by simp [hx]))
    have hg : g ≠ [] := hne g (by simp)
    have hfl : (g' :: gs).flatten ≠ [] :=
      flatten_ne_nil_of_head_ne_nil (g' :: gs) (by simp)
        (fun x hx => hne x (by simp [hx]))
    have happ := joinWordsL_append g ((g' :: gs).flatten) hg hfl
    calc joinWordsL ((g :: g' :: gs).map joinWordsL)
        = joinWordsL g ++ ' ' :: joinWordsL ((g' :: gs).map joinWordsL) := by
          simp only [List.map_cons, joinWordsL]
      _ = joinWordsL g ++ ' ' :: joinWordsL ((g' :: gs).flatten) := by rw [ih]
      _ = joinWordsL (g ++ (g' :: gs).flatten) := happ.symm
      _ = joinWordsL ((g :: g' :: gs).flatten) := by simp

/-! Invariants of the whitespace splitter. -/

theorem splitAux_ne_nil : ∀ (l acc : List Char) (b : Bool), splitAux l acc b ≠ []
  | [], acc, b => by simp [splitAux]
  | c :: rest, acc, b => by
    by_cases h : isWsChar c
    · cases b <;> simp [splitAux, h] <;> exact splitAux_ne_nil rest [] true
    · simpa [splitAux, h] using splitAux_ne_nil rest (c :: acc) false

theorem splitAux_no_ws :
    ∀ (l acc : List Char) (b : Bool), (∀ c ∈ acc, isWsChar c = false) →
      ∀ w ∈ splitAux l acc b, ∀ c ∈ w, isWsChar c = false
  | [], acc, b => by
    intro hacc w hw c hc
    simp [splitAux] at hw
    subst hw
    exact hacc c (List.mem_reverse.mp hc)
  | d :: rest, acc, b => by
    intro hacc w hw c hc
    by_cases h : isWsChar d
    · cases b
      · simp [splitAux, h] at hw
        rcases hw with hw | hw
        · subst hw; exact hacc c (List.mem_reverse.mp hc)
        · exact splitAux_no_ws rest [] true (by simp) w hw c hc
      · simp [splitAux, h] at hw
        exact splitAux_no_ws rest [] true (by simp) w hw c hc
    · simp only [splitAux, h, if_neg, Bool.false_eq_true, not_false_iff] at hw
      refine splitAux_no_ws rest (d :: acc) false ?_ w hw c hc
      intro x hx
      rcases List.mem_cons.mp hx with hx | hx
      · subst hx; simpa using h
      · exact hacc x hx

theorem splitAux_dropLast_ne_nil :
    ∀ (l acc : List Char) (b : Bool), (b = false → acc ≠ []) →
      ∀ w ∈ (splitAux l acc b).dropLast, w ≠ []
  | [], acc, b => by
    intro _ w hw
    simp [splitAux] at hw
  | c :: rest, acc, b => by
    intro hb w hw
    by_cases h : isWsChar c
    · cases b
      · have hacc : acc ≠ [] := hb rfl
        simp only [splitAux, h, if_pos, Bool.false_eq_true, if_neg, not_false_iff] at hw
        rcases he : splitAux rest [] true with _ | ⟨x, xs⟩
        · exact absurd he (splitAux_ne_nil rest [] true)
        · rw [he, List.dropLast_cons₂] at hw
          rcases List.mem_cons.mp hw with hw | hw
          · subst hw; simpa using hacc
          · refine splitAux_dropLast_ne_nil rest [] true (by simp) w ?_
            rw [he]; exact hw
      · simp only [splitAux, h, if_pos] at hw
        exact splitAux_dropLast_ne_nil rest [] true (by simp) w hw
    · simp only [splitAux, h, if_neg, not_false_iff] at hw
      exact splitAux_dropLast_ne_nil rest (c :: acc) false (by simp) w hw

/-- The words produced by the splitter: never the empty list, no whitespace
inside any word, and only the first and last word may be empty. -/
def wordsOk (ws : List (List Char)) : Prop :=
  ws ≠ [] ∧ (∀ w ∈ ws, ∀ c ∈ w, isWsChar c = false) ∧
    (∀ w ∈ ws.dropLast.tail, w ≠ [])

theorem splitWsL_wordsOk (l : List Char) : wordsOk (splitWsL l) := by
  refine ⟨splitAux_ne_nil l [] false, splitAux_no_ws l [] false (by simp), ?_⟩
  intro w hw
  rcases l with _ | ⟨c, rest⟩
  · simp [splitWsL, splitAux] at hw
  · by_cases h : isWsChar c
    · have h1 : splitWsL (c :: rest) = [] :: splitAux rest [] true := by
        simp [splitWsL, splitAux, h]
      rw [h1] at hw
      rcases he : splitAux rest [] true with _ | ⟨x, xs⟩
      · exact absurd he (splitAux_ne_nil rest [] true)
      · rw [he, List.dropLast_cons₂, List.tail_cons] at hw
        refine splitAux_dropLast_ne_nil rest [] true (by simp) w ?_
        rw [he]; exact hw
    · have h1 : splitWsL (c :: rest) = splitAux rest [c] false := by
        simp [splitWsL, splitAux, h]
      rw [h1] at hw
      exact splitAux_dropLast_ne_nil rest [c] false (by simp) w
        (List.mem_of_mem_tail hw)

/-! Round trip: splitting the space-joined words gives back the words. -/

theorem splitAux_consume :
    ∀ (w t acc : List Char) (b : Bool), (∀ c ∈ w, isWsChar c = false) → w ≠ [] →
      splitAux (w ++ t) acc b = splitAux t (w.reverse ++ acc) false
  | [], _, _, _, _, hne => absurd rfl hne
  | [c], t, acc, b, hns, _ => by
    have hc : isWsChar c = false := hns c (by simp)
    simp [splitAux, hc]
  | c :: c' :: w, t, acc, b, hns, _ => by
    have hc : isWsChar c = false := hns c (by simp)
    have ih := splitAux_consume (c' :: w) t (c :: acc) false
      (fun x hx => hns x (List.mem_cons_of_mem c hx)) (by simp)
    simp only [List.cons_append, splitAux, hc, Bool.false_eq_true, if_neg,
      not_false_iff]
    simp only [List.cons_append, splitAux, Bool.false_eq_true, if_false] at ih
    rw [ih]
    congr 1
    simp

theorem splitAux_skipping_join :
    ∀ (ws : List (List Char)), (∀ w ∈ ws, ∀ c ∈ w, isWsChar c = false) →
      (∀ w ∈ ws.dropLast, w ≠ []) → ws ≠ [] →
      splitAux (joinWordsL ws) [] true = ws
  | [], _, _, hne => absurd rfl hne
  | [w], hns, _, _ => by
    rcases hw : w with _ | ⟨c, w'⟩
    · simp [joinWordsL, splitAux]
    · have := splitAux_consume w [] [] true (hns w (by simp)) (by rw [hw]; simp)
      rw [hw] at this
      simpa [joinWordsL, splitAux] using this
  | w :: w' :: ws, hns, hdl, _ => by
    have hw : w ≠ [] := hdl w (by simp)
    have step := splitAux_consume w (' ' :: joinWordsL (w' :: ws)) [] true
      (hns w (by simp)) hw
    have hws : isWsChar ' ' = true := by decide
    have ih := splitAux_skipping_join (w' :: ws)
      (fun x hx => hns x (List.mem_cons_of_mem w hx))
      (fun x hx => hdl x (by
        rcases ht : (w' :: ws).dropLast with _ | ⟨y, ys⟩
        · rw [ht] at hx; simp at hx
        · rw [List.dropLast_cons₂]
          rw [ht] at hx ⊢
          exact List.mem_cons_of_mem w hx))
      (by simp)
    calc splitAux (joinWordsL (w :: w' :: ws)) [] true
        = splitAux (w ++ ' ' :: joinWordsL (w' :: ws)) [] true := rfl
      _ = splitAux (' ' :: joinWordsL (w' :: ws)) (w.reverse ++ []) false := step
      _ = (w.reverse ++ []).reverse :: splitAux (joinWordsL (w' :: ws)) [] true := by
          simp [splitAux, hws]
      _ = w :: w' :: ws := by rw [ih]; simp

theorem splitAux_false_join :
    ∀ (ws : List (List Char)), wordsOk ws →
      splitAux (joinWordsL ws) [] false = ws := by
  intro ws hok
  obtain ⟨hne, hns, hint⟩ := hok
  rcases ws with _ | ⟨w, ws'⟩
  · exact absurd rfl hne
  · rcases ws' with _ | ⟨w', ws''⟩
    · rcases hw : w with _ | ⟨c, w'⟩
      · simp [joinWordsL, splitAux]
      · have := splitAux_consume w [] [] false (hns w (by simp)) (by rw [hw]; simp)
        rw [hw] at this
        simpa [joinWordsL, splitAux] using this
    · have hint' : ∀ x ∈ (w' :: ws'').dropLast, x ≠ [] := by
        intro x hx
        refine hint x ?_
        rw [List.dropLast_cons₂, List.tail_cons]
        exact hx
      have ih := splitAux_skipping_join (w' :: ws'')
        (fun x hx => hns x (List.mem_cons_of_mem w hx)) hint' (by simp)
      have hws : isWsChar ' ' = true := by decide
      rcases hw : w with _ | ⟨c, wtl⟩
      · calc splitAux (joinWordsL ([] :: w' :: ws'')) [] false
            = splitAux (' ' :: joinWordsL (w' :: ws'')) [] false := rfl
          _ = [] :: splitAux (joinWordsL (w' :: ws'')) [] true := by
              simp [splitAux, hws]
          _ = [] :: w' :: ws'' := by rw [ih]
      · have hwne : w ≠ [] := by rw [hw]; simp
        have step := splitAux_consume w (' ' :: joinWordsL (w' :: ws'')) [] false
          (hns w (by simp)) hwne
        rw [← hw]
        calc splitAux (joinWordsL (w :: w' :: ws'')) [] false
            = splitAux (w ++ ' ' :: joinWordsL (w' :: ws'')) [] false := by
              rw [hw]; rfl
          _ = splitAux (' ' :: joinWordsL (w' :: ws'')) (w.reverse ++ []) false := step
          _ = (w.reverse ++ []).reverse :: splitAux (joinWordsL (w' :: ws'')) [] true := by
              simp [splitAux, hws]
          _ = w :: w' :: ws'' := by rw [ih]; simp

theorem splitWsL_joinWordsL_roundtrip (l : List Char) :
    splitWsL (joinWordsL (splitWsL l)) = splitWsL l :=
  splitAux_false_join (splitWsL l) (splitWsL_wordsOk l)

/-! Bridge between character lists and Lean strings. -/

/-- JS text.split(/\s+/) at the String level: the word sequence of a text. -/
def splitWs (s : String) : List String := (splitWsL s.data).map String.mk

theorem strMk_append (a b : List Char) :
    String.mk a ++ String.mk b = String.mk (a ++ b) := rfl

theorem joinWordsStr_map_mk : ∀ l : List (List Char),
    joinWordsStr (l.map String.mk) = String.mk (joinWordsL l)
  | [] => rfl
  | [w] => rfl
  | w :: w' :: ws => by
    have ih := joinWordsStr_map_mk (w' :: ws)
    calc joinWordsStr ((w :: w' :: ws).map String.mk)
        = String.mk w ++ " " ++ joinWordsStr ((w' :: ws).map String.mk) := rfl
      _ = String.mk w ++ String.mk [' '] ++ String.mk (joinWordsL (w' :: ws)) := by
          rw [ih]
      _ = String.mk ((w ++ [' ']) ++ joinWordsL (w' :: ws)) := rfl
      _ = String.mk (w ++ ' ' :: joinWordsL (w' :: ws)) := by congr 1; simp
      _ = String.mk (joinWordsL (w :: w' :: ws)) := rfl

theorem chunkText_flat_eq (s : String) (m : Nat) :
    splitWsL (joinWordsL (chunkAuxL m (splitWsL s.data) [])) = splitWsL s.data := by
  rw [chunkAuxL_eq_map m (splitWsL s.data) []]
  rw [joinWordsL_map_join (chunkGroupsL m (splitWsL s.data) [])
    (chunkGroupsL_ne_nil m (splitWsL s.data) [])]
  rw [chunkGroupsL_join m (splitWsL s.data) []]
  simpa using splitWsL_joinWordsL_roundtrip s.data

/-- C4: every chunk emitted by chunkText is the space-join of a group of
whole whitespace-delimited words of the input, the groups partition the
input's word sequence in order, and splitting the space-joined concatenation
of all chunks on whitespace yields exactly the word sequence of the original
text. -/
theorem chunkText_whole_words (s : String) (m : Nat) (h1 : s ≠ "") (h2 : 0 < m) :
    (∃ groups : List (List String),
        chunkText s m = groups.map joinWordsStr ∧
        groups.flatten = splitWs s) ∧
    splitWs (joinWordsStr (chunkText s m)) = splitWs s := by
  constructor
  · refine ⟨(chunkGroupsL m (splitWsL s.data) []).map (List.map String.mk), ?_, ?_⟩
    · rw [chunkText, chunkAuxL_eq_map m (splitWsL s.data) []]
      rw [List.map_map, List.map_map]
      refine List.map_congr_left ?_
      intro g _
      exact (joinWordsStr_map_mk g).symm
    · rw [← List.map_flatten, chunkGroupsL_join m (splitWsL s.data) []]
      simp [splitWs]
  · rw [chunkText, joinWordsStr_map_mk]
    show (splitWsL (joinWordsL (chunkAuxL m (splitWsL s.data) []))).map String.mk = _
    rw [chunkText_flat_eq s m]
    rfl

/-- C4 witness at a concrete text and bound. -/
theorem chunkText_whole_words_witness :
    (∃ groups : List (List String),
        chunkText "ab cd ef" 4 = groups.map joinWordsStr ∧
        groups.flatten = splitWs "ab cd ef") ∧
    splitWs (joinWordsStr (chunkText "ab cd ef" 4)) = splitWs "ab cd ef" :=
  chunkText_whole_words "ab cd ef" 4 (by decide) (by decide)

/-- C10: every chunk except possibly the last has length at least
maxChunkSize: the bound acts as a lower bound for non-final chunks, not an
upper bound. -/
theorem chunkText_lower_bound (s : String) (m : Nat) (h : 0 < m) :
    ∀ c ∈ (chunkText s m).dropLast, m ≤ c.length := by
  intro c hc
  rw [chunkText, ← List.map_dropLast] at hc
  rcases List.mem_map.mp hc with ⟨l, hl, hlc⟩
  have := chunkAuxL_dropLast_length m (splitWsL s.data) [] l hl
  rw [← hlc]
  exact this

/-- C10 witness: with bound 4, the first of the two chunks of a concrete
text has length at least 4. -/
theorem chunkText_lower_bound_witness :
    4 ≤ ((chunkText "aa bb cc" 4).dropLast.headD "").length :=
  chunkText_lower_bound "aa bb cc" 4 (by decide)
    ((chunkText "aa bb cc" 4).dropLast.headD "") (by decide)

/-- C5 counterexample: on the empty string the chunker returns one chunk
(the empty chunk), not zero chunks, because JS "".split on a regex yields
one empty word which the trailing-chunk push then emits. -/
theorem chunkText_empty_counterexample :
    chunkText "" 1000 = [""] ∧ chunkText "" 1000 ≠ [] := by
  constructor <;> decide

/-- C5 amended: for every bound maxSize greater than 0, chunkText returns at
least one chunk for every input, and on the empty string it returns exactly
one chunk, the empty chunk. -/
theorem chunkText_count (s : String) (m : Nat) (h : 0 < m) :
    chunkText s m ≠ [] ∧ (s = "" → chunkText s m = [""]) := by
  constructor
  · rw [chunkText]
    intro hmap
    exact chunkAuxL_ne_nil m (splitWsL s.data) []
      (Or.inl (splitAux_ne_nil s.data [] false)) (List.map_eq_nil_iff.mp hmap)
  · intro hs
    subst hs
    have hdata : ("" : String).data = [] := rfl
    have hsplit : splitWsL ("" : String).data = [[]] := rfl
    have hnle : ¬ m ≤ (joinWordsL ([] ++ [[]])).length := by
      simp [joinWordsL]
      omega
    rw [chunkText, hsplit]
    rw [show chunkAuxL m [[]] [] = chunkAuxL m [] ([] ++ [[]]) from by
      simp [chunkAuxL, hnle]]
    simp [chunkAuxL, joinWordsL]

/-- C5 amended witness at concrete inputs. -/
theorem chunkText_count_witness :
    chunkText "" 1000 ≠ [] ∧ ("" = "" → chunkText "" 1000 = [""]) :=
  chunkText_count "" 1000 (by decide)

/-! String search utilities used as the embedding of JS
String.prototype.includes and String.prototype.startsWith. -/

def listStartsWith [BEq α] : List α → List α → Bool
  | _, [] => true
  | [], _ :: _ => false
  | a :: as, b :: bs => a == b && listStartsWith as bs

def listHasSub [BEq α] : List α → List α → Bool
  | [], needle => needle.isEmpty
  | c :: rest, needle => listStartsWith (c :: rest) needle || listHasSub rest needle

/-- JS s.includes(sub). -/
def strIncludes (s sub : String) : Bool := listHasSub s.data sub.data

/-- JS s.startsWith(pre). -/
def strStarts (s pre : String) : Bool := listStartsWith s.data pre.data

theorem listStartsWith_nil [BEq α] : ∀ (l : List α), listStartsWith l [] = true
  | [] => rfl
  | _ :: _ => rfl

theorem listStartsWith_append [BEq α] [LawfulBEq α] :
    ∀ (n t : List α), listStartsWith (n ++ t) n = true
  | [], t => listStartsWith_nil t
  | a :: as, t => by
    simp only [List.cons_append, listStartsWith, beq_self_eq_true, Bool.true_and]
    exact listStartsWith_append as t

theorem listHasSub_of_startsWith [BEq α] :
    ∀ (l n : List α), listStartsWith l n = true → listHasSub l n = true
  | [], n, h => by
    cases n
    · rfl
    · simp [listStartsWith] at h
  | c :: rest, n, h => by
    show (listStartsWith (c :: rest) n || listHasSub rest n) = true
    rw [h]
    simp

theorem listHasSub_append [BEq α] [LawfulBEq α] :
    ∀ (a n b : List α), listHasSub (a ++ (n ++ b)) n = true
  | [], n, b => by
    rw [List.nil_append]
    exact listHasSub_of_startsWith (n ++ b) n (listStartsWith_append n b)
  | x :: as, n, b => by
    show (listStartsWith (x :: (as ++ (n ++ b))) n || listHasSub (as ++ (n ++ b)) n) = true
    rw [listHasSub_append as n b]
    simp

theorem strIncludes_append (a n b : String) :
    strIncludes (a ++ (n ++ b)) n = true := by
  have hd : (a ++ (n ++ b)).data = a.data ++ (n.data ++ b.data) := by
    rcases a with ⟨la⟩; rcases n with ⟨ln⟩; rcases b with ⟨lb⟩
    rfl
  rw [strIncludes, hd]
  exact listHasSub_append a.data n.data b.data

example : strIncludes "initialize/verify" "verify" = true := by decide
example : strIncludes "Not found" "Not found" = true := by decide
example : strIncludes "create" "verify" = false := by decide

/-! Embedding service module (src embeddings: providers and factory). -/

/-- Error codes of the MCP SDK used by this repository. -/
inductive ErrorCode
  | InvalidParams
  | InvalidRequest
  | InternalError
deriving DecidableEq, Repr

/-- McpError: a typed protocol error carrying a code and a message. -/
structure McpError where
  code : ErrorCode
  message : String
deriving DecidableEq, Repr

/-- A thrown JavaScript value: either an Error instance carrying a message,
or any other thrown value rendered as text. -/
inductive JsError
  | err (message : String)
  | other (s : String)
deriving DecidableEq, Repr

def jsErrorText : JsError → String
  | .err m => m
  | .other s => s

/-- The provider selector of the embedding configuration. -/
inductive ProviderKind
  | ollama
  | openai
  | google
deriving DecidableEq, Repr

/-- The configuration record passed to EmbeddingService.createFromConfig;
none stands for an unset (undefined) environment variable. -/
structure EmbeddingConfig where
  provider : ProviderKind
  model : Option String
  openaiApiKey : Option String
  openaiBaseUrl : Option String
  geminiApiKey : Option String
deriving DecidableEq, Repr

/-- A constructed embedding provider (OllamaProvider, OpenAIProvider or
GoogleGenAIProvider) with the constructor arguments it stores. -/
inductive EmbeddingProvider
  | ollamaProvider (model : String)
  | openaiProvider (apiKey : String) (model : String) (baseURL : Option String)
  | googleProvider (apiKey : String) (model : String)
deriving DecidableEq, Repr

/-- getVectorSize of each provider: a static substring lookup on the model
name with a logged default when the model is unrecognized. -/
def EmbeddingProvider.getVectorSize : EmbeddingProvider → Nat
  | .ollamaProvider model =>
    if strIncludes model "nomic-embed-text" then 768 else 768
  | .openaiProvider _ model _ =>
    if strIncludes model "text-embedding-3-small" || strIncludes model "ada-002" then 1536
    else if strIncludes model "text-embedding-3-large" then 3072
    else 1536
  | .googleProvider _ model =>
    if strIncludes model "embedding-001" then 768 else 768

theorem getVectorSize_pos (svc : EmbeddingProvider) : 0 < svc.getVectorSize := by
  rcases svc with m | ⟨k, m, u⟩ | ⟨k, m⟩
  · simp only [EmbeddingProvider.getVectorSize]
    split <;> omega
  · simp only [EmbeddingProvider.getVectorSize]
    split
    · omega
    · split <;> omega
  · simp only [EmbeddingProvider.getVectorSize]
    split <;> omega

/-- JS falsiness of an optional string: undefined and the empty string are
falsy. -/
def strFalsy : Option String → Bool
  | none => true
  | some s => s == ""

/-- EmbeddingService.createFromConfig: selects the provider variant,
applying each constructor's default model name when no model is configured,
and fails with an InvalidParams McpError when the selected variant's
credential is missing (JS-falsy). -/
def createFromConfig (config : EmbeddingConfig) : Except McpError EmbeddingProvider :=
  match config.provider with
  | .ollama => .ok (.ollamaProvider (config.model.getD "nomic-embed-text"))
  | .openai =>
    if strFalsy config.openaiApiKey then
      .error ⟨.InvalidParams, "OpenAI API key (OPENAI_API_KEY) is required for openai provider"⟩
    else
      .ok (.openaiProvider (config.openaiApiKey.getD "")
        (config.model.getD "text-embedding-3-small") config.openaiBaseUrl)
  | .google =>
    if strFalsy config.geminiApiKey then
      .error ⟨.InvalidParams, "Google Gemini API key (GEMINI_API_KEY) is required for google provider"⟩
    else
      .ok (.googleProvider (config.geminiApiKey.getD "") (config.model.getD "embedding-001"))

/-- The ApiClient state established by its constructor. -/
structure ApiClient where
  qdrantUrl : String
  qdrantApiKey : Option String
  embeddingService : EmbeddingProvider
deriving DecidableEq, Repr

/-- The ApiClient constructor: builds the embedding service from the
configuration, and on failure rethrows, preventing the server from starting
with a partially initialized provider. -/
def apiClientInit (cfg : EmbeddingConfig) (qdrantUrl : String)
    (qdrantApiKey : Option String) : Except String ApiClient :=
  match createFromConfig cfg with
  | .error e => .error ("Failed to initialize EmbeddingService: " ++ e.message)
  | .ok svc => .ok ⟨qdrantUrl, qdrantApiKey, svc⟩

/-- C7: selecting openai without an OpenAI API key, or google without a
Gemini API key, makes createFromConfig fail immediately with an
InvalidParams error and ApiClient construction fail too; the ollama variant
needs no credential and always constructs. -/
theorem createFromConfig_credentials (cfg : EmbeddingConfig) (url : String)
    (key : Option String) :
    (cfg.provider = .openai → cfg.openaiApiKey = none →
      createFromConfig cfg =
        .error ⟨.InvalidParams, "OpenAI API key (OPENAI_API_KEY) is required for openai provider"⟩ ∧
      apiClientInit cfg url key =
        .error "Failed to initialize EmbeddingService: OpenAI API key (OPENAI_API_KEY) is required for openai provider") ∧
    (cfg.provider = .google → cfg.geminiApiKey = none →
      createFromConfig cfg =
        .error ⟨.InvalidParams, "Google Gemini API key (GEMINI_API_KEY) is required for google provider"⟩ ∧
      apiClientInit cfg url key =
        .error "Failed to initialize EmbeddingService: Google Gemini API key (GEMINI_API_KEY) is required for google provider") ∧
    (cfg.provider = .ollama →
      createFromConfig cfg = .ok (.ollamaProvider (cfg.model.getD "nomic-embed-text")) ∧
      apiClientInit cfg url key = .ok ⟨url, key, .ollamaProvider (cfg.model.getD "nomic-embed-text")⟩) := by
  refine ⟨?_, ?_, ?_⟩
  · intro hp hk
    have h1 : createFromConfig cfg =
        .error ⟨.InvalidParams, "OpenAI API key (OPENAI_API_KEY) is required for openai provider"⟩ := by
      rw [createFromConfig, hp, hk]
      rfl
    exact ⟨h1, by rw [apiClientInit, h1]; rfl⟩
  · intro hp hk
    have h1 : createFromConfig cfg =
        .error ⟨.InvalidParams, "Google Gemini API key (GEMINI_API_KEY) is required for google provider"⟩ := by
      rw [createFromConfig, hp, hk]
      rfl
    exact ⟨h1, by rw [apiClientInit, h1]; rfl⟩
  · intro hp
    have h1 : createFromConfig cfg = .ok (.ollamaProvider (cfg.model.getD "nomic-embed-text")) := by
      rw [createFromConfig, hp]
    exact ⟨h1, by rw [apiClientInit, h1]⟩

/-- C7 witness at concrete configurations. -/
theorem createFromConfig_credentials_witness :
    (createFromConfig ⟨.openai, none, none, none, none⟩ =
      .error ⟨.InvalidParams, "OpenAI API key (OPENAI_API_KEY) is required for openai provider"⟩ ∧
      apiClientInit ⟨.openai, none, none, none, none⟩ "http://127.0.0.1:6333" none =
        .error "Failed to initialize EmbeddingService: OpenAI API key (OPENAI_API_KEY) is required for openai provider") ∧
    (createFromConfig ⟨.google, none, none, none, none⟩ =
      .error ⟨.InvalidParams, "Google Gemini API key (GEMINI_API_KEY) is required for google provider"⟩ ∧
      apiClientInit ⟨.google, none, none, none, none⟩ "http://127.0.0.1:6333" none =
        .error "Failed to initialize EmbeddingService: Google Gemini API key (GEMINI_API_KEY) is required for google provider") ∧
    (createFromConfig ⟨.ollama, none, none, none, none⟩ =
      .ok (.ollamaProvider "nomic-embed-text") ∧
      apiClientInit ⟨.ollama, none, none, none, none⟩ "http://127.0.0.1:6333" none =
        .ok ⟨"http://127.0.0.1:6333", none, .ollamaProvider "nomic-embed-text"⟩) :=
  ⟨(createFromConfig_credentials ⟨.openai, none, none, none, none⟩ "http://127.0.0.1:6333" none).1 rfl rfl,
   (createFromConfig_credentials ⟨.google, none, none, none, none⟩ "http://127.0.0.1:6333" none).2.1 rfl rfl,
   (createFromConfig_credentials ⟨.ollama, none, none, none, none⟩ "http://127.0.0.1:6333" none).2.2 rfl⟩

/-! Qdrant collection lifecycle (ApiClient.initCollection and the
centralized error handler). The vector store is modelled as an association
list of named collections; each collection carries its readable configured
vector size (none when the configuration is unreadable), its distance
metric, and the identifiers of its stored points. -/

structure QdrantCollection where
  vectorSize : Option Nat
  distance : String
  points : List String
deriving DecidableEq, Repr

structure QdrantState where
  collections : List (String × QdrantCollection)
deriving DecidableEq, Repr

/-- Store calls issued by initCollection, in order. -/
inductive QdrantAction
  | create (name : String) (size : Nat)
  | delete (name : String)
deriving DecidableEq, Repr

/-- The lookup performed by collections.find on the getCollections result. -/
def qdrantLookup (st : QdrantState) (name : String) : Option QdrantCollection :=
  match st.collections.find? (fun p => p.1 == name) with
  | some p => some p.2
  | none => none

/-- Effect of qdrantClient.createCollection: the new collection has the
requested size (readable), Cosine distance and no points. -/
def qdrantCreate (st : QdrantState) (name : String) (size : Nat) : QdrantState :=
  ⟨(name, ⟨some size, "Cosine", []⟩) :: st.collections⟩

/-- Effect of qdrantClient.deleteCollection. -/
def qdrantDelete (st : QdrantState) (name : String) : QdrantState :=
  ⟨st.collections.filter (fun p => !(p.1 == name))⟩

/-- Outcome of ApiClient.handleQdrantError: either the error is swallowed
(the handler returns without throwing) or a typed McpError is thrown. -/
inductive QdrantOutcome
  | swallowed
  | raised (e : McpError)
deriving DecidableEq, Repr

/-- ApiClient.handleQdrantError: swallows a "Not found" during verification
and an "already exists" during creation, classifies connectivity and
authorization failures, and wraps everything else generically. -/
def handleQdrantError (qdrantUrl : String) (e : JsError) (context : String) :
    QdrantOutcome :=
  match e with
  | .err msg =>
    if strIncludes msg "Not found" && strIncludes context "verify" then
      .swallowed
    else if strIncludes msg "already exists" && (context == "create") then
      .swallowed
    else if strIncludes msg "timed out" || strIncludes msg "ECONNREFUSED" then
      .raised ⟨.InternalError,
        "Connection to Qdrant (" ++ qdrantUrl ++ ") failed during collection " ++
          context ++ ". Please check Qdrant status and URL."⟩
    else if strIncludes msg "Unauthorized" || strIncludes msg "Forbidden" then
      .raised ⟨.InvalidRequest,
        "Authentication failed for Qdrant during collection " ++ context ++
          ". Please check QDRANT_API_KEY if using Qdrant Cloud."⟩
    else
      .raised ⟨.InternalError,
        "Qdrant error during collection " ++ context ++ ": " ++ msg⟩
  | .other s =>
    .raised ⟨.InternalError,
      "Unknown Qdrant error during collection " ++ context ++ ": " ++ s⟩

/-- ApiClient.initCollection over the modelled store. getErr injects the
store error (if any) thrown by the verification read
qdrantClient.getCollection; that error is routed through handleQdrantError
with context "initialize/verify" exactly as the catch block does. The JS
test (!currentVectorSize) treats a configured size of 0 like an unreadable
one, hence the cur = 0 branch. Returns the resulting store state and the
issued create and delete calls in order. -/
def initCollection (st : QdrantState) (svc : EmbeddingProvider) (name : String)
    (getErr : Option JsError) (qdrantUrl : String) :
    Except McpError (QdrantState × List QdrantAction) :=
  let required := svc.getVectorSize
  match qdrantLookup st name with
  | none => .ok (qdrantCreate st name required, [QdrantAction.create name required])
  | some info =>
    match getErr with
    | some e =>
      match handleQdrantError qdrantUrl e "initialize/verify" with
      | .swallowed => .ok (st, [])
      | .raised me => .error me
    | none =>
      match info.vectorSize with
      | none => .ok (qdrantCreate (qdrantDelete st name) name required,
          [QdrantAction.delete name, QdrantAction.create name required])
      | some cur =>
        if cur = 0 then
          .ok (qdrantCreate (qdrantDelete st name) name required,
            [QdrantAction.delete name, QdrantAction.create name required])
        else if cur ≠ required then
          .ok (qdrantCreate (qdrantDelete st name) name required,
            [QdrantAction.delete name, QdrantAction.create name required])
        else
          .ok (st, [])

/-- The three-way case split claimed by the specification, written from its
words: absent means create with the required size; present with readable
size equal to the required size means no action; present otherwise means
delete then recreate. -/
def initCollectionSpec (st : QdrantState) (svc : EmbeddingProvider)
    (name : String) : QdrantState × List QdrantAction :=
  let required := svc.getVectorSize
  match qdrantLookup st name with
  | none => (qdrantCreate st name required, [QdrantAction.create name required])
  | some info =>
    if info.vectorSize = some required then (st, [])
    else (qdrantCreate (qdrantDelete st name) name required,
      [QdrantAction.delete name, QdrantAction.create name required])

/-- C1: with no store error injected, initCollection behaves exactly as the
three-way case split of the specification: create when absent (with the
provider's required size and Cosine distance, recorded by qdrantCreate),
no-op when the readable size matches, and delete-then-recreate (discarding
all points) when the size is unreadable or different. -/
theorem initCollection_matches_spec (st : QdrantState) (svc : EmbeddingProvider)
    (name : String) (qdrantUrl : String) :
    initCollection st svc name none qdrantUrl = .ok (initCollectionSpec st svc name) := by
  rcases hq : qdrantLookup st name with _ | info
  · rw [initCollection, initCollectionSpec, hq]
  · rw [initCollection, initCollectionSpec, hq]
    dsimp only
    rcases hv : info.vectorSize with _ | cur
    · simp
    · dsimp only
      by_cases h0 : cur = 0
      · subst h0
        have hx : ¬ ((some 0 : Option Nat) = some svc.getVectorSize) := by
          have := getVectorSize_pos svc
          intro hcon
          injection hcon with hcon
          omega
        simp [hx]
      · by_cases heq : cur = svc.getVectorSize
        · subst heq
          simp [h0]
        · have hx : ¬ ((some cur : Option Nat) = some svc.getVectorSize) := by
            intro hcon
            injection hcon with hcon
            exact heq hcon
          simp [h0, heq, hx]

theorem qdrantLookup_create (st : QdrantState) (name : String) (size : Nat) :
    qdrantLookup (qdrantCreate st name size) name =
      some ⟨some size, "Cosine", []⟩ := by
  simp [qdrantLookup, qdrantCreate]

theorem initCollection_noop_of_matching (st' : QdrantState) (svc : EmbeddingProvider)
    (name qdrantUrl : String) (info : QdrantCollection)
    (h : qdrantLookup st' name = some info)
    (hv : info.vectorSize = some svc.getVectorSize) :
    initCollection st' svc name none qdrantUrl = .ok (st', []) := by
  have hpos := getVectorSize_pos svc
  simp only [initCollection, h, hv]
  rw [if_neg (by omega)]
  simp

/-- C2: initCollection is idempotent: from any state reached by a
successful call, an immediately repeated call with the same provider issues
no create and no delete and leaves the store state unchanged. -/
theorem initCollection_idempotent (st st1 : QdrantState) (svc : EmbeddingProvider)
    (name qdrantUrl : String) (acts1 : List QdrantAction)
    (h : initCollection st svc name none qdrantUrl = .ok (st1, acts1)) :
    initCollection st1 svc name none qdrantUrl = .ok (st1, []) := by
  rcases hq : qdrantLookup st name with _ | info
  · simp only [initCollection, hq, Except.ok.injEq, Prod.mk.injEq] at h
    obtain ⟨h1, h2⟩ := h
    subst h1
    exact initCollection_noop_of_matching _ svc name qdrantUrl _
      (qdrantLookup_create st name svc.getVectorSize) rfl
  · simp only [initCollection, hq] at h
    rcases hv : info.vectorSize with _ | cur
    · rw [hv] at h
      simp only [Except.ok.injEq, Prod.mk.injEq] at h
      obtain ⟨h1, h2⟩ := h
      subst h1
      exact initCollection_noop_of_matching _ svc name qdrantUrl _
        (qdrantLookup_create _ name svc.getVectorSize) rfl
    · rw [hv] at h
      dsimp only at h
      by_cases h0 : cur = 0
      · subst h0
        rw [if_pos rfl] at h
        simp only [Except.ok.injEq, Prod.mk.injEq] at h
        obtain ⟨h1, h2⟩ := h
        subst h1
        exact initCollection_noop_of_matching _ svc name qdrantUrl _
          (qdrantLookup_create _ name svc.getVectorSize) rfl
      · rw [if_neg h0] at h
        by_cases heq : cur = svc.getVectorSize
        · rw [if_neg (by simp [heq])] at h
          simp only [Except.ok.injEq, Prod.mk.injEq] at h
          obtain ⟨h1, h2⟩ := h
          subst h1
          refine initCollection_noop_of_matching _ svc name qdrantUrl info hq ?_
          rw [hv, heq]
        · rw [if_pos (by simpa using heq)] at h
          simp only [Except.ok.injEq, Prod.mk.injEq] at h
          obtain ⟨h1, h2⟩ := h
          subst h1
          exact initCollection_noop_of_matching _ svc name qdrantUrl _
            (qdrantLookup_create _ name svc.getVectorSize) rfl

/-- C2 witness: a concrete successful call followed by a repeat call. -/
theorem initCollection_idempotent_witness :
    initCollection
      (qdrantCreate ⟨[]⟩ "documentation" 768) (.ollamaProvider "nomic-embed-text")
      "documentation" none "http://127.0.0.1:6333" =
      .ok (qdrantCreate ⟨[]⟩ "documentation" 768, []) :=
  initCollection_idempotent ⟨[]⟩ (qdrantCreate ⟨[]⟩ "documentation" 768)
    (.ollamaProvider "nomic-embed-text") "documentation" "http://127.0.0.1:6333"
    [QdrantAction.create "documentation" 768] (by rfl)

theorem strAppend_assoc (a b c : String) : (a ++ b) ++ c = a ++ (b ++ c) := by
  rcases a with ⟨la⟩; rcases b with ⟨lb⟩; rcases c with ⟨lc⟩
  show String.mk ((la ++ lb) ++ lc) = String.mk (la ++ (lb ++ lc))
  rw [List.append_assoc]

/-- C3 counterexample: a "Not found" store error raised by the verification
read is swallowed, but initCollection then returns with no create issued at
all (empty action list), so the caller does not proceed to create the
collection as the claim states. -/
theorem initCollection_notFound_counterexample :
    initCollection ⟨[("documentation", ⟨some 768, "Cosine", ["p1"]⟩)]⟩
      (.ollamaProvider "nomic-embed-text") "documentation"
      (some (.err "Not found")) "http://127.0.0.1:6333" =
      .ok (⟨[("documentation", ⟨some 768, "Cosine", ["p1"]⟩)]⟩, []) := by rfl

/-- C3 amended: a "Not found" store error raised during the pure
verification read is swallowed and initCollection returns without issuing
any create or delete; an "already exists" error during creation is
swallowed and treated as success; every other store error is re-raised as
a typed McpError: connectivity failures as InternalError with the
configured endpoint contained in the message, authorization failures as a
distinct InvalidRequest error; and nothing but those two benign cases is
ever swallowed. -/
theorem qdrantError_classification (url msg ctx : String) (e : JsError)
    (st : QdrantState) (svc : EmbeddingProvider) (name : String)
    (info : QdrantCollection) :
    (strIncludes msg "Not found" = true →
      handleQdrantError url (.err msg) "initialize/verify" = .swallowed) ∧
    (qdrantLookup st name = some info → strIncludes msg "Not found" = true →
      initCollection st svc name (some (.err msg)) url = .ok (st, [])) ∧
    (strIncludes msg "already exists" = true →
      handleQdrantError url (.err msg) "create" = .swallowed) ∧
    ((strIncludes msg "Not found" && strIncludes ctx "verify") = false →
     (strIncludes msg "already exists" && (ctx == "create")) = false →
     (strIncludes msg "timed out" || strIncludes msg "ECONNREFUSED") = true →
      handleQdrantError url (.err msg) ctx =
        .raised ⟨.InternalError,
          "Connection to Qdrant (" ++ url ++ ") failed during collection " ++
            ctx ++ ". Please check Qdrant status and URL."⟩ ∧
      strIncludes
        ("Connection to Qdrant (" ++ url ++ ") failed during collection " ++
          ctx ++ ". Please check Qdrant status and URL.") url = true) ∧
    ((strIncludes msg "Not found" && strIncludes ctx "verify") = false →
     (strIncludes msg "already exists" && (ctx == "create")) = false →
     (strIncludes msg "timed out" || strIncludes msg "ECONNREFUSED") = false →
     (strIncludes msg "Unauthorized" || strIncludes msg "Forbidden") = true →
      handleQdrantError url (.err msg) ctx =
        .raised ⟨.InvalidRequest,
          "Authentication failed for Qdrant during collection " ++ ctx ++
            ". Please check QDRANT_API_KEY if using Qdrant Cloud."⟩) ∧
    (handleQdrantError url e ctx = .swallowed →
      ∃ m, e = .err m ∧
        ((strIncludes m "Not found" && strIncludes ctx "verify") = true ∨
         (strIncludes m "already exists" && (ctx == "create")) = true)) := by
  have hverify : strIncludes "initialize/verify" "verify" = true := by decide
  have hnfc : ∀ m : String, strIncludes m "Not found" = true →
      handleQdrantError url (.err m) "initialize/verify" = .swallowed := by
    intro m hm
    simp [handleQdrantError, hm, hverify]
  refine ⟨hnfc msg, ?_, ?_, ?_, ?_, ?_⟩
  · intro hlook hnf
    simp only [initCollection, hlook]
    rw [hnfc msg hnf]
  · intro hae
    simp [handleQdrantError, hae]
  · intro hb1 hb2 hcon
    constructor
    · simp only [handleQdrantError, hb1, hb2, hcon, Bool.false_eq_true,
        if_false, if_true]
    · have hmsg : ("Connection to Qdrant (" ++ url ++ ") failed during collection " ++
          ctx ++ ". Please check Qdrant status and URL.")
          = "Connection to Qdrant (" ++
            (url ++ (") failed during collection " ++
              (ctx ++ ". Please check Qdrant status and URL."))) := by
        simp [strAppend_assoc]
      rw [hmsg]
      exact strIncludes_append _ url _
  · intro hb1 hb2 hcon hauth
    simp only [handleQdrantError, hb1, hb2, hcon, hauth, Bool.false_eq_true,
      if_false, if_true]
  · intro h
    rcases e with m | s
    · by_cases hb1 : (strIncludes m "Not found" && strIncludes ctx "verify") = true
      · exact ⟨m, rfl, Or.inl hb1⟩
      · by_cases hb2 : (strIncludes m "already exists" && (ctx == "create")) = true
        · exact ⟨m, rfl, Or.inr hb2⟩
        · exfalso
          rw [Bool.not_eq_true] at hb1 hb2
          simp only [handleQdrantError, hb1, hb2, Bool.false_eq_true, if_false] at h
          split at h
          · exact QdrantOutcome.noConfusion h
          · split at h
            · exact QdrantOutcome.noConfusion h
            · exact QdrantOutcome.noConfusion h
    · simp [handleQdrantError] at h

/-- C3 amended witness at concrete messages, contexts and store states. -/
theorem qdrantError_classification_witness :
    handleQdrantError "http://q" (.err "Not found") "initialize/verify" = .swallowed ∧
    initCollection ⟨[("documentation", ⟨some 768, "Cosine", ["p0"]⟩)]⟩
      (.ollamaProvider "nomic-embed-text") "documentation"
      (some (.err "Not found")) "http://q" =
      .ok (⟨[("documentation", ⟨some 768, "Cosine", ["p0"]⟩)]⟩, []) ∧
    handleQdrantError "http://q" (.err "ECONNREFUSED") "create" =
      .raised ⟨.InternalError,
        "Connection to Qdrant (" ++ "http://q" ++ ") failed during collection " ++
          "create" ++ ". Please check Qdrant status and URL."⟩ ∧
    handleQdrantError "http://q" (.err "Unauthorized") "create" =
      .raised ⟨.InvalidRequest,
        "Authentication failed for Qdrant during collection " ++ "create" ++
          ". Please check QDRANT_API_KEY if using Qdrant Cloud."⟩ := by
  refine ⟨?_, ?_, ?_, ?_⟩
  · exact (qdrantError_classification "http://q" "Not found" "initialize/verify"
      (.err "Not found") ⟨[]⟩ (.ollamaProvider "nomic-embed-text") "documentation"
      ⟨some 768, "Cosine", []⟩).1 (by decide)
  · exact (qdrantError_classification "http://q" "Not found" "initialize/verify"
      (.err "Not found") ⟨[("documentation", ⟨some 768, "Cosine", ["p0"]⟩)]⟩
      (.ollamaProvider "nomic-embed-text") "documentation"
      ⟨some 768, "Cosine", ["p0"]⟩).2.1 (by rfl) (by decide)
  · exact ((qdrantError_classification "http://q" "ECONNREFUSED" "create"
      (.err "ECONNREFUSED") ⟨[]⟩ (.ollamaProvider "nomic-embed-text") "documentation"
      ⟨some 768, "Cosine", []⟩).2.2.2.1 (by decide) (by decide) (by decide)).1
  · exact (qdrantError_classification "http://q" "Unauthorized" "create"
      (.err "Unauthorized") ⟨[]⟩ (.ollamaProvider "nomic-embed-text") "documentation"
      ⟨some 768, "Cosine", []⟩).2.2.2.2.1 (by decide) (by decide) (by decide) (by decide)

/-! The add_documentation handler (AddDocumentationHandler.handle,
fetchAndProcessUrl, generatePointId) with its external collaborators
modelled as oracles: the fetch/render layer, the filesystem, the clock,
the random-byte source and the per-batch upsert outcome. Node path
resolution is modelled on segment lists. -/

/-- JS s.split('/') on a character list: every slash separates, empty
segments are kept. -/
def splitOnSlash : List Char → List (List Char)
  | [] => [[]]
  | c :: rest =>
    if c == '/' then [] :: splitOnSlash rest
    else
      match splitOnSlash rest with
      | [] => [[c]]
      | s :: ss => (c :: s) :: ss

/-- A parsed path: whether it is absolute and its raw slash-separated
segments. -/
structure NodePath where
  abs : Bool
  segs : List String
deriving DecidableEq, Repr

def parsePath (s : String) : NodePath :=
  ⟨strStarts s "/", (splitOnSlash s.data).map String.mk⟩

/-- One normalization step of path resolution: empty and dot segments are
dropped, dot-dot pops the last resolved segment (staying at the root when
there is none), anything else is appended. -/
def normStep (stack : List String) (seg : String) : List String :=
  if seg = "" then stack
  else if seg = "." then stack
  else if seg = ".." then stack.dropLast
  else stack ++ [seg]

/-- Node path.resolve of a source path against an absolute working
directory, returning the normalized absolute segment list. -/
def resolveSegs (cwd : List String) (p : NodePath) : List String :=
  (if p.abs then p.segs else cwd ++ p.segs).foldl normStep []

/-- Node path.relative between two absolute normalized segment lists. -/
def relativeSegs : List String → List String → List String
  | [], t => t
  | f :: fs, [] => (f :: fs).map (fun _ => "..")
  | f :: fs, t :: ts =>
    if f = t then relativeSegs fs ts
    else ((f :: fs).map (fun _ => "..")) ++ t :: ts

/-- Joining path segments with slashes. -/
def joinSlash : List String → String
  | [] => ""
  | [x] => x
  | x :: xs => x ++ "/" ++ joinSlash xs

/-- A DocumentChunk payload: chunk text, source url, title and ingestion
timestamp. -/
structure DocumentChunk where
  text : String
  url : String
  title : String
  timestamp : String
deriving DecidableEq, Repr

/-- A point sent to the vector store: random identifier, embedding vector,
payload and the literal payload-type discriminator always written. -/
structure UpsertPoint where
  id : String
  vector : List Int
  payload : DocumentChunk
  payloadType : String
deriving DecidableEq, Repr

/-- Filesystem error kinds distinguished by the handler. -/
inductive FileErr
  | enoent
  | eacces
  | other (msg : String)
deriving DecidableEq, Repr

/-- Externally observable side effects of one handler run, in order. -/
inductive HandlerEvent
  | fsAccess (p : List String)
  | fsRead (p : List String)
  | embedCall (text : String)
  | upsertCall (batch : Nat) (pts : List UpsertPoint)
deriving DecidableEq, Repr

/-- Oracles for the handler's collaborators: working directory, fetch
result for a URL source, file read result for the local branch, current
time, the stream of generatePointId outputs, the embedding result per
chunk text and the upsert outcome per batch. -/
structure HandlerEnv where
  cwd : List String
  fetchResult : Except JsError (String × String)
  fileResult : Except FileErr String
  now : String
  randStream : Nat → String
  embedResult : String → Except McpError (List Int)
  upsertResult : Nat → Option JsError

/-- Chunks produced from extracted text: chunkText with the fixed bound
1000, each wrapped with source url, title and timestamp. -/
def mkChunks (source title now content : String) : List DocumentChunk :=
  (chunkText content 1000).map (fun c => ⟨c, source, title, now⟩)

/-- AddDocumentationHandler.fetchAndProcessUrl: URL sources go through the
fetch/render collaborator; anything else is treated as a local path,
resolved against the working directory, rejected when the relative path
from the workspace root starts with dot-dot or is absolute, and otherwise
read from the filesystem. Returns the produced chunks or the thrown
McpError, together with the filesystem events that occurred. -/
def fetchAndProcessUrl (env : HandlerEnv) (source : String) :
    Except McpError (List DocumentChunk) × List HandlerEvent :=
  if strStarts source "http://" || strStarts source "https://" then
    match env.fetchResult with
    | .error e =>
      (.error ⟨.InternalError,
        "Failed to fetch or process source " ++ source ++ ": " ++ jsErrorText e⟩, [])
    | .ok (title, mainContent) =>
      (.ok (mkChunks source title env.now mainContent), [])
  else
    let resolvedPath := resolveSegs env.cwd (parsePath source)
    let workspaceRoot := resolveSegs env.cwd (parsePath ".")
    let relStr := joinSlash (relativeSegs workspaceRoot resolvedPath)
    if strStarts relStr ".." || strStarts relStr "/" then
      (.error ⟨.InvalidParams,
        "Access denied: Path is outside the allowed workspace directory."⟩, [])
    else
      match env.fileResult with
      | .error .enoent =>
        (.error ⟨.InvalidParams, "Local file not found: " ++ joinSlash resolvedPath⟩,
          [.fsAccess resolvedPath])
      | .error .eacces =>
        (.error ⟨.InvalidParams,
          "Permission denied reading local file: " ++ joinSlash resolvedPath⟩,
          [.fsAccess resolvedPath])
      | .error (.other msg) =>
        (.error ⟨.InternalError,
          "Error reading local file " ++ joinSlash resolvedPath ++ ": " ++ msg⟩,
          [.fsAccess resolvedPath])
      | .ok content =>
        (.ok (mkChunks source (resolvedPath.getLastD "") env.now content),
          [.fsAccess resolvedPath, .fsRead resolvedPath])

/-- A thrown value inside the handler body: either an already-typed
McpError or a raw store/runtime error. -/
inductive Thrown
  | mcp (e : McpError)
  | js (e : JsError)
deriving DecidableEq, Repr

/-- The upsert catch block: an unauthorized message becomes a typed
authentication failure, connection-refused or timeout a typed connectivity
failure, anything else is rethrown unchanged. -/
def classifyUpsertError (e : JsError) : Thrown :=
  match e with
  | .err msg =>
    if strIncludes msg "unauthorized" then
      .mcp ⟨.InvalidRequest, "Failed to authenticate with Qdrant cloud while adding documents"⟩
    else if strIncludes msg "ECONNREFUSED" || strIncludes msg "ETIMEDOUT" then
      .mcp ⟨.InternalError, "Connection to Qdrant cloud failed while adding documents"⟩
    else .js e
  | .other _ => .js e

/-- Embedding of one batch: each chunk is embedded and paired with the next
generatePointId output (the k-th chunk consumes the k-th random
identifier); the first embedding failure aborts the batch. -/
def embedBatch (env : HandlerEnv) : List DocumentChunk → Nat → Except McpError (List UpsertPoint)
  | [], _ => .ok []
  | c :: rest, k =>
    match env.embedResult c.text with
    | .error e => .error e
    | .ok v =>
      match embedBatch env rest (k + 1) with
      | .error e => .error e
      | .ok ps => .ok (⟨env.randStream k, v, c, "DocumentChunk"⟩ :: ps)

/-- The body of the batch loop, structurally recursive on a fuel bound:
each iteration takes a slice of 100 chunks, embeds it, upserts it with
wait, classifies an upsert error, and continues with the remaining chunks.
One unit of fuel covers at least one consumed chunk, so fuel equal to the
chunk count is always enough. -/
def processBatchesGo (env : HandlerEnv) :
    Nat → List DocumentChunk → Nat → Nat → Except Thrown Unit × List HandlerEvent
  | _, [], _, _ => (.ok (), [])
  | 0, _ :: _, _, _ => (.ok (), [])
  | fuel + 1, c :: rest, offset, batchNum =>
    let batch := (c :: rest).take 100
    let evs := batch.map (fun ch => HandlerEvent.embedCall ch.text)
    match embedBatch env batch offset with
    | .error e => (.error (.mcp e), evs)
    | .ok pts =>
      let evs2 := evs ++ [HandlerEvent.upsertCall batchNum pts]
      match env.upsertResult batchNum with
      | some e => (.error (classifyUpsertError e), evs2)
      | none =>
        let r := processBatchesGo env fuel ((c :: rest).drop 100)
          (offset + batch.length) (batchNum + 1)
        (r.1, evs2 ++ r.2)

/-- The batch loop of handle: slices of 100 chunks are embedded and
upserted with wait, upsert errors are classified, and processing stops at
the first failure. Returns the outcome and the embed/upsert events. -/
def processBatches (env : HandlerEnv) (chunks : List DocumentChunk)
    (offset batchNum : Nat) : Except Thrown Unit × List HandlerEvent :=
  processBatchesGo env chunks.length chunks offset batchNum

/-- The structured tool response: content lines and the error flag. -/
structure McpToolResponse where
  content : List String
  isError : Bool
deriving DecidableEq, Repr

/-- JS Math.ceil(a / b) on naturals. -/
def natCeilDiv (a b : Nat) : Nat := (a + b - 1) / b

/-- AddDocumentationHandler.handle: validates args.url, fetches and chunks
the source, embeds and upserts in batches of 100, rethrows any McpError
unchanged, and converts every other thrown value into a structured
failure response with isError set. -/
def handleAdd (env : HandlerEnv) (argsUrl : Option String) :
    Except McpError McpToolResponse × List HandlerEvent :=
  match argsUrl with
  | none => (.error ⟨.InvalidParams, "URL is required"⟩, [])
  | some source =>
    if source = "" then (.error ⟨.InvalidParams, "URL is required"⟩, [])
    else
      match fetchAndProcessUrl env source with
      | (.error e, evs) => (.error e, evs)
      | (.ok chunks, evs) =>
        match processBatches env chunks 0 0 with
        | (.ok _, evs2) =>
          (.ok ⟨["Successfully added documentation from " ++ source ++ " (" ++
            toString chunks.length ++ " chunks processed in " ++
            toString (natCeilDiv chunks.length 100) ++ " batches)"], false⟩,
            evs ++ evs2)
        | (.error (.mcp e), evs2) => (.error e, evs ++ evs2)
        | (.error (.js e), evs2) =>
          (.ok ⟨["Failed to add documentation: " ++ jsErrorText e], true⟩,
            evs ++ evs2)

theorem strData_append (a b : String) : (a ++ b).data = a.data ++ b.data := by
  rcases a with ⟨la⟩; rcases b with ⟨lb⟩
  rfl

theorem listStartsWith_self [BEq α] [LawfulBEq α] (l : List α) :
    listStartsWith l l = true := by
  have := listStartsWith_append l ([] : List α)
  simpa using this

theorem resolveSegs_empty_eq_dot (cwd : List String) :
    resolveSegs cwd (parsePath "") = resolveSegs cwd (parsePath ".") := by
  show (cwd ++ [""]).foldl normStep [] = (cwd ++ ["."]).foldl normStep []
  rw [List.foldl_append, List.foldl_append]
  rfl

theorem relativeSegs_head_dotdot :
    ∀ (f t : List String), listStartsWith t f = false →
      ∃ rest, relativeSegs f t = ".." :: rest
  | [], t, h => by
    rw [listStartsWith_nil] at h
    exact Bool.noConfusion h
  | f :: fs, [], _ => ⟨fs.map (fun _ => ".."), by simp [relativeSegs]⟩
  | f :: fs, t :: ts, h => by
    by_cases hft : f = t
    · subst hft
      have h' : listStartsWith ts fs = false := by
        simp only [listStartsWith, beq_self_eq_true, Bool.true_and] at h
        exact h
      obtain ⟨rest, hr⟩ := relativeSegs_head_dotdot fs ts h'
      exact ⟨rest, by simp [relativeSegs, hr]⟩
    · refine ⟨fs.map (fun _ => "..") ++ t :: ts, ?_⟩
      simp [relativeSegs, hft]

theorem joinSlash_dotdot (rest : List String) :
    strStarts (joinSlash (".." :: rest)) ".." = true := by
  rcases rest with _ | ⟨x, xs⟩
  · decide
  · show strStarts (".." ++ "/" ++ joinSlash (x :: xs)) ".." = true
    rw [strStarts, strAppend_assoc, strData_append]
    exact listStartsWith_append ("..".data) (("/" ++ joinSlash (x :: xs)).data)

/-- C6: for a source treated as a local path, when its resolution against
the working directory does not stay under the workspace root the handler
answers the Access denied InvalidParams error with an empty event list: no
filesystem access or read occurs and no chunk is embedded or upserted. -/
theorem addDoc_path_guard (env : HandlerEnv) (source : String)
    (h1 : strStarts source "http://" = false)
    (h2 : strStarts source "https://" = false)
    (h3 : listStartsWith (resolveSegs env.cwd (parsePath source))
      (resolveSegs env.cwd (parsePath ".")) = false) :
    handleAdd env (some source) =
      (.error ⟨.InvalidParams,
        "Access denied: Path is outside the allowed workspace directory."⟩, []) := by
  have hsrc : source ≠ "" := by
    intro hs
    subst hs
    rw [resolveSegs_empty_eq_dot, listStartsWith_self] at h3
    exact Bool.noConfusion h3
  obtain ⟨rest, hrel⟩ := relativeSegs_head_dotdot
    (resolveSegs env.cwd (parsePath ".")) (resolveSegs env.cwd (parsePath source)) h3
  have hguard : strStarts (joinSlash (relativeSegs
      (resolveSegs env.cwd (parsePath "."))
      (resolveSegs env.cwd (parsePath source)))) ".." = true := by
    rw [hrel]
    exact joinSlash_dotdot rest
  have hfetch : fetchAndProcessUrl env source =
      (.error ⟨.InvalidParams,
        "Access denied: Path is outside the allowed workspace directory."⟩, []) := by
    rw [fetchAndProcessUrl]
    rw [if_neg (by rw [h1, h2]; simp)]
    dsimp only
    rw [if_pos (by rw [hguard]; simp)]
  simp only [handleAdd]
  rw [if_neg hsrc, hfetch]

/-- C6 witness: the documented traversal example from working directory
srv/app. -/
theorem addDoc_path_guard_witness :
    handleAdd
      ⟨["srv", "app"], .ok ("t", "c"), .ok "content", "2025-01-01",
        fun _ => "r", fun _ => .ok [1], fun _ => none⟩
      (some "../../etc/passwd") =
      (.error ⟨.InvalidParams,
        "Access denied: Path is outside the allowed workspace directory."⟩, []) :=
  addDoc_path_guard
    ⟨["srv", "app"], .ok ("t", "c"), .ok "content", "2025-01-01",
      fun _ => "r", fun _ => .ok [1], fun _ => none⟩
    "../../etc/passwd" (by decide) (by decide) (by decide)

/-- C8: an upsert failure with an unauthorized message is reclassified as a
typed InvalidRequest authentication failure; connection-refused or timeout
as a typed InternalError connectivity failure; a typed McpError thrown by
the fetch stage or the batch loop is propagated unchanged out of handle;
every other thrown value makes handle return a structured response with
isError set instead of an error. -/
theorem addDoc_error_taxonomy (env : HandlerEnv) (source msg : String)
    (chunks : List DocumentChunk) (evs evs2 : List HandlerEvent)
    (e : McpError) (je : JsError) :
    (strIncludes msg "unauthorized" = true →
      classifyUpsertError (.err msg) =
        .mcp ⟨.InvalidRequest,
          "Failed to authenticate with Qdrant cloud while adding documents"⟩) ∧
    (strIncludes msg "unauthorized" = false →
     (strIncludes msg "ECONNREFUSED" || strIncludes msg "ETIMEDOUT") = true →
      classifyUpsertError (.err msg) =
        .mcp ⟨.InternalError,
          "Connection to Qdrant cloud failed while adding documents"⟩) ∧
    (source ≠ "" → fetchAndProcessUrl env source = (.error e, evs) →
      (handleAdd env (some source)).1 = .error e) ∧
    (source ≠ "" → fetchAndProcessUrl env source = (.ok chunks, evs) →
      processBatches env chunks 0 0 = (.error (.mcp e), evs2) →
      (handleAdd env (some source)).1 = .error e) ∧
    (source ≠ "" → fetchAndProcessUrl env source = (.ok chunks, evs) →
      processBatches env chunks 0 0 = (.error (.js je), evs2) →
      (handleAdd env (some source)).1 =
        .ok ⟨["Failed to add documentation: " ++ jsErrorText je], true⟩) := by
  refine ⟨?_, ?_, ?_, ?_, ?_⟩
  · intro h
    simp [classifyUpsertError, h]
  · intro h1 h2
    simp [classifyUpsertError, h1, h2]
  · intro hs hf
    simp only [handleAdd]
    rw [if_neg hs, hf]
  · intro hs hf hp
    simp only [handleAdd]
    rw [if_neg hs, hf]
    dsimp only
    rw [hp]
  · intro hs hf hp
    simp only [handleAdd]
    rw [if_neg hs, hf]
    dsimp only
    rw [hp]

/-- C8 witness: concrete runs exercising the authentication
reclassification, the connectivity reclassification, unchanged propagation
of a typed error, and the structured isError response for a generic
thrown value. -/
theorem addDoc_error_taxonomy_witness :
    classifyUpsertError (.err "unauthorized") =
      .mcp ⟨.InvalidRequest,
        "Failed to authenticate with Qdrant cloud while adding documents"⟩ ∧
    classifyUpsertError (.err "ETIMEDOUT") =
      .mcp ⟨.InternalError,
        "Connection to Qdrant cloud failed while adding documents"⟩ ∧
    (handleAdd ⟨["srv", "app"], .error (.other "x"), .ok "hello", "ts",
        fun _ => "r", fun _ => .ok [1], fun _ => some (.err "unauthorized")⟩
      (some "http://a")).1 =
      .error ⟨.InternalError,
        "Failed to fetch or process source " ++ "http://a" ++ ": " ++
          jsErrorText (.other "x")⟩ ∧
    (handleAdd ⟨["srv", "app"], .ok ("t", "c"), .ok "hello", "ts",
        fun _ => "r", fun _ => .ok [1], fun _ => some (.err "unauthorized")⟩
      (some "doc.txt")).1 =
      .error ⟨.InvalidRequest,
        "Failed to authenticate with Qdrant cloud while adding documents"⟩ ∧
    (handleAdd ⟨["srv", "app"], .ok ("t", "c"), .ok "hello", "ts",
        fun _ => "r", fun _ => .ok [1], fun _ => some (.err "boom")⟩
      (some "doc.txt")).1 =
      .ok ⟨["Failed to add documentation: " ++ jsErrorText (.err "boom")], true⟩ := by
  refine ⟨?_, ?_, ?_, ?_, ?_⟩
  · exact (addDoc_error_taxonomy
      ⟨[], .ok ("", ""), .ok "", "", fun _ => "", fun _ => .ok [], fun _ => none⟩
      "x" "unauthorized" [] [] [] ⟨.InternalError, ""⟩ (.err "")).1 (by decide)
  · exact (addDoc_error_taxonomy
      ⟨[], .ok ("", ""), .ok "", "", fun _ => "", fun _ => .ok [], fun _ => none⟩
      "x" "ETIMEDOUT" [] [] [] ⟨.InternalError, ""⟩ (.err "")).2.1
      (by decide) (by decide)
  · exact (addDoc_error_taxonomy
      ⟨["srv", "app"], .error (.other "x"), .ok "hello", "ts",
        fun _ => "r", fun _ => .ok [1], fun _ => some (.err "unauthorized")⟩
      "http://a" "" [] [] []
      ⟨.InternalError,
        "Failed to fetch or process source " ++ "http://a" ++ ": " ++
          jsErrorText (.other "x")⟩
      (.err "")).2.2.1 (by decide) (by rfl)
  · exact (addDoc_error_taxonomy
      ⟨["srv", "app"], .ok ("t", "c"), .ok "hello", "ts",
        fun _ => "r", fun _ => .ok [1], fun _ => some (.err "unauthorized")⟩
      "doc.txt" "" [⟨"hello", "doc.txt", "doc.txt", "ts"⟩]
      [.fsAccess ["srv", "app", "doc.txt"], .fsRead ["srv", "app", "doc.txt"]]
      [.embedCall "hello",
        .upsertCall 0 [⟨"r", [1], ⟨"hello", "doc.txt", "doc.txt", "ts"⟩, "DocumentChunk"⟩]]
      ⟨.InvalidRequest,
        "Failed to authenticate with Qdrant cloud while adding documents"⟩
      (.err "")).2.2.2.1 (by decide) (by rfl) (by rfl)
  · exact (addDoc_error_taxonomy
      ⟨["srv", "app"], .ok ("t", "c"), .ok "hello", "ts",
        fun _ => "r", fun _ => .ok [1], fun _ => some (.err "boom")⟩
      "doc.txt" "" [⟨"hello", "doc.txt", "doc.txt", "ts"⟩]
      [.fsAccess ["srv", "app", "doc.txt"], .fsRead ["srv", "app", "doc.txt"]]
      [.embedCall "hello",
        .upsertCall 0 [⟨"r", [1], ⟨"hello", "doc.txt", "doc.txt", "ts"⟩, "DocumentChunk"⟩]]
      ⟨.InternalError, ""⟩ (.err "boom")).2.2.2.2
      (by decide) (by rfl) (by rfl)

/-- The vector store's upsert semantics on a collection's point
identifiers: a point whose identifier is already present overwrites in
place (the identifier set is unchanged), otherwise the point is appended. -/
def upsertIds (existing : List String) (newIds : List String) : List String :=
  newIds.foldl (fun acc i => if i ∈ acc then acc else acc ++ [i]) existing

theorem embedBatch_ids (env : HandlerEnv) :
    ∀ (batch : List DocumentChunk) (k : Nat) (ps : List UpsertPoint),
      embedBatch env batch k = .ok ps →
      ps.map UpsertPoint.id =
        (List.range batch.length).map (fun j => env.randStream (k + j))
  | [], k, ps => by
    intro h
    simp only [embedBatch, Except.ok.injEq] at h
    subst h
    simp
  | c :: rest, k, ps => by
    intro h
    simp only [embedBatch] at h
    rcases he : env.embedResult c.text with e | v
    · rw [he] at h; exact Except.noConfusion h
    · rw [he] at h
      rcases hr : embedBatch env rest (k + 1) with e | ps'
      · rw [hr] at h; exact Except.noConfusion h
      · rw [hr] at h
        simp only [Except.ok.injEq] at h
        subst h
        have ih := embedBatch_ids env rest (k + 1) ps' hr
        simp only [List.map_cons, ih, List.length_cons]
        have hmap : ((List.range rest.length).map Nat.succ).map
            (fun j => env.randStream (k + j))
            = (List.range rest.length).map (fun j => env.randStream (k + 1 + j)) := by
          rw [List.map_map]
          refine List.map_congr_left ?_
          intro a _
          show env.randStream (k + (a + 1)) = env.randStream (k + 1 + a)
          congr 1
          omega
        rw [List.range_succ_eq_map, List.map_cons, hmap]
        simp

theorem upsertIds_fresh :
    ∀ (newIds existing : List String), (∀ i ∈ newIds, i ∉ existing) →
      newIds.Nodup → upsertIds existing newIds = existing ++ newIds
  | [], existing, _, _ => by simp [upsertIds]
  | i :: rest, existing, hfresh, hnd => by
    have hni : i ∉ existing := hfresh i (by simp)
    have hstep : upsertIds existing (i :: rest) = upsertIds (existing ++ [i]) rest := by
      simp [upsertIds, hni]
    have hfresh' : ∀ x ∈ rest, x ∉ existing ++ [i] := by
      intro x hx hmem
      rcases List.mem_append.mp hmem with h1 | h1
      · exact hfresh x (List.mem_cons_of_mem i hx) h1
      · rcases List.mem_singleton.mp h1 with rfl
        exact (List.nodup_cons.mp hnd).1 hx
    rw [hstep, upsertIds_fresh rest (existing ++ [i]) hfresh' (List.nodup_cons.mp hnd).2]
    simp

/-- C9: the identifier of the j-th point built for a batch starting at
stream position k is exactly the (k+j)-th output of the random-byte
source, so the identifier sequence is a function of the randomness stream
and positions alone: two runs over the same stream produce the same
identifiers whatever the chunks' text, url, title or timestamp are; and
upserting points whose identifiers do not collide with the stored ones
appends new points rather than overwriting existing ones. -/
theorem pointId_randomness (env env' : HandlerEnv)
    (batch batch' : List DocumentChunk) (k : Nat)
    (ps ps' : List UpsertPoint) (existing newIds : List String)
    (hok : embedBatch env batch k = .ok ps)
    (hok' : embedBatch env' batch' k = .ok ps')
    (hstream : env'.randStream = env.randStream)
    (hlen : batch'.length = batch.length)
    (hfresh : ∀ i ∈ newIds, i ∉ existing) (hnd : newIds.Nodup) :
    ps.map UpsertPoint.id =
      (List.range batch.length).map (fun j => env.randStream (k + j)) ∧
    ps'.map UpsertPoint.id = ps.map UpsertPoint.id ∧
    upsertIds existing newIds = existing ++ newIds := by
  refine ⟨embedBatch_ids env batch k ps hok, ?_,
    upsertIds_fresh newIds existing hfresh hnd⟩
  rw [embedBatch_ids env batch k ps hok, embedBatch_ids env' batch' k ps' hok',
    hstream, hlen]

/-- C9 witness: two batches with entirely different chunk contents over the
same randomness stream get the same identifiers, and a fresh upsert
appends. -/
theorem pointId_randomness_witness :
    [UpsertPoint.mk "0" [1] ⟨"ta", "ua", "tia", "sa"⟩ "DocumentChunk",
     UpsertPoint.mk "1" [1] ⟨"tb", "ub", "tib", "sb"⟩ "DocumentChunk"].map
        UpsertPoint.id =
      (List.range 2).map (fun j =>
        (⟨[], .ok ("", ""), .ok "", "", fun n => toString n, fun _ => .ok [1],
          fun _ => none⟩ : HandlerEnv).randStream (0 + j)) ∧
    [UpsertPoint.mk "0" [2] ⟨"tc", "uc", "tic", "sc"⟩ "DocumentChunk",
     UpsertPoint.mk "1" [2] ⟨"td", "ud", "tid", "sd"⟩ "DocumentChunk"].map
        UpsertPoint.id =
      [UpsertPoint.mk "0" [1] ⟨"ta", "ua", "tia", "sa"⟩ "DocumentChunk",
       UpsertPoint.mk "1" [1] ⟨"tb", "ub", "tib", "sb"⟩ "DocumentChunk"].map
        UpsertPoint.id ∧
    upsertIds ["a"] ["b", "c"] = ["a"] ++ ["b", "c"] :=
  pointId_randomness
    ⟨[], .ok ("", ""), .ok "", "", fun n => toString n, fun _ => .ok [1],
      fun _ => none⟩
    ⟨[], .ok ("", ""), .ok "", "", fun n => toString n, fun _ => .ok [2],
      fun _ => none⟩
    [⟨"ta", "ua", "tia", "sa"⟩, ⟨"tb", "ub", "tib", "sb"⟩]
    [⟨"tc", "uc", "tic", "sc"⟩, ⟨"td", "ud", "tid", "sd"⟩] 0
    [UpsertPoint.mk "0" [1] ⟨"ta", "ua", "tia", "sa"⟩ "DocumentChunk",
     UpsertPoint.mk "1" [1] ⟨"tb", "ub", "tib", "sb"⟩ "DocumentChunk"]
    [UpsertPoint.mk "0" [2] ⟨"tc", "uc", "tic", "sc"⟩ "DocumentChunk",
     UpsertPoint.mk "1" [2] ⟨"td", "ud", "tid", "sd"⟩ "DocumentChunk"]
    ["a"] ["b", "c"] (by rfl) (by rfl) rfl rfl (by decide) (by decide)
